import Mathlib

/-!
Shallow embedding of `src/parser.py`, a bank-statement transaction parser.

Modelling conventions, stated once here:

* Python `str` values are Lean `String`s (a structure over `List Char`);
  most work happens on `List Char`.
* Python's whitespace class (the `re` class from the pattern
  `[\n\r\s]+`, `str.strip()` and the `[,\sRUB]+` amount pattern) is
  modelled by `isPySpace` over the standard Unicode whitespace code
  points.  Non-ASCII decimal digits (which Python's `\d` and
  `float()` would also accept) are not modelled: `\d` is ASCII here.
* Python `float` values are modelled exactly by `PyFloat`: a finite
  rational, a signed infinity, or `nan`.  Parsing a decimal literal
  yields the exact rational it denotes, so rounding to binary doubles
  and overflow to infinity are not modelled; all amounts occurring in
  the repository's statements are short decimals, for which the
  modelled arithmetic agrees with the source's.  Rationals are
  constructed through `mkRat` so that concrete runs reduce inside the
  kernel.
* `str(float)` (used by the f-string in `create_transaction`) is
  modelled by the exact decimal expansion of the rational, which
  agrees with CPython's shortest-roundtrip repr on short decimals;
  scientific notation for extreme magnitudes is not modelled.
* Exceptions (`ValueError`, `IndexError`) are modelled by
  `Except Unit`: `.error ()` is a raised exception, caught by the
  per-row `try/except` of the two statement parsers.
* `pdfplumber` is external input: the embedding takes the already
  extracted tables (pages flattened in encounter order), each table a
  list of rows, each row a list of nullable cells (`Option String`).
* `list.sort(key=attrgetter('date'))` is a stable ascending sort; it
  is modelled by a stable insertion sort, which is proved below to
  sort and to preserve the relative order of equal-date entries, the
  two properties that characterise the source's sort extensionally.
-/

deriving instance DecidableEq for Except

/-- Code points matched by the whitespace classes used in the source
(`\s` in `CLEAN_PATTERN` and `AMOUNT_PATTERN`, and `str.strip()`). -/
def isPySpace (c : Char) : Bool :=
  decide (c.toNat ∈ ([0x9, 0xa, 0xb, 0xc, 0xd, 0x1c, 0x1d, 0x1e, 0x1f, 0x20,
      0x85, 0xa0, 0x1680, 0x2028, 0x2029, 0x202f, 0x205f, 0x3000] : List ℕ)) ||
  decide (0x2000 ≤ c.toNat ∧ c.toNat ≤ 0x200a)

/-- One pass of `CLEAN_PATTERN.sub(' ', text)` from `clean_value`:
every maximal run of whitespace characters becomes a single space. -/
def collapseWs : List Char → List Char
  | [] => []
  | [c] => if isPySpace c then [' '] else [c]
  | c :: c2 :: cs =>
    if isPySpace c && isPySpace c2 then collapseWs (c2 :: cs)
    else (if isPySpace c then ' ' else c) :: collapseWs (c2 :: cs)

/-- Removing trailing whitespace, the right half of `str.strip()`. -/
def dropTrailWs (l : List Char) : List Char :=
  (l.reverse.dropWhile isPySpace).reverse

/-- Python `str.strip()`. -/
def stripWs (l : List Char) : List Char :=
  dropTrailWs (l.dropWhile isPySpace)

/-- Characters deleted by `AMOUNT_PATTERN = re.compile(r'[,\sRUB]+')`
(substituting the empty string for runs of them deletes each one). -/
def isAmountStrip (c : Char) : Bool :=
  c == ',' || c == 'R' || c == 'U' || c == 'B' || isPySpace c

/-- The function `clean_value(text, is_amount=False)` from the source: empty for
falsy input, otherwise whitespace runs collapsed to single spaces, the
result stripped, and, for amounts, the `[,\sRUB]` characters deleted. -/
def clean_value (text : Option String) (isAmount : Bool) : String :=
  match text with
  | none => ""
  | some s =>
    if s = "" then ""
    else
      let cleaned := stripWs (collapseWs s.data)
      let cleaned := if isAmount then cleaned.filter (fun c => !isAmountStrip c) else cleaned
      String.mk cleaned

/-- Python's substring test `pat in l` on character lists. -/
def listContains (l pat : List Char) : Bool :=
  match l with
  | [] => pat.isEmpty
  | _ :: t => pat.isPrefixOf l || listContains t pat

/-- Python's substring test `pat in s` on strings. -/
def strContains (s pat : String) : Bool :=
  listContains s.data pat.data

/-- A CPython `float` value: a finite value (held exactly as a
rational), a signed infinity, or a nan. -/
inductive PyFloat where
  | finite (q : ℚ)
  | infinite (neg : Bool)
  | nan
deriving DecidableEq, Repr

/-- Python `+` on floats.  Finite addition is exact (see the header
note on rounding and overflow). -/
def PyFloat.add : PyFloat → PyFloat → PyFloat
  | .nan, _ => .nan
  | _, .nan => .nan
  | .infinite a, .infinite b => if a == b then .infinite a else .nan
  | .infinite a, .finite _ => .infinite a
  | .finite _, .infinite b => .infinite b
  | .finite a, .finite b => .finite (mkRat (a.num * b.den + b.num * a.den) (a.den * b.den))

/-- Python `x == 0` on a float (`nan == 0` and `inf == 0` are false). -/
def PyFloat.eqZero : PyFloat → Bool
  | .finite q => q == 0
  | _ => false

/-- Numeric value of an ASCII digit. -/
def digVal (c : Char) : ℕ := c.toNat - 48

/-- Longest `digitpart` continuation for `float()` literals: consumes
digits, allowing single underscores between digits, and accumulates
the value and the digit count.  The first argument is recursion fuel
(one unit per consumed character suffices); structural recursion on it
keeps the definition kernel-reducible. -/
def digitsGo : ℕ → ℕ → ℕ → List Char → ℕ × ℕ × List Char
  | 0, acc, nd, l => (acc, nd, l)
  | _ + 1, acc, nd, [] => (acc, nd, [])
  | fuel + 1, acc, nd, c :: cs =>
    if c.isDigit then digitsGo fuel (acc * 10 + digVal c) (nd + 1) cs
    else if c == '_' then
      match cs with
      | c2 :: cs2 =>
        if c2.isDigit then digitsGo fuel (acc * 10 + digVal c2) (nd + 1) cs2
        else (acc, nd, c :: cs)
      | [] => (acc, nd, c :: cs)
    else (acc, nd, c :: cs)

/-- A `digitpart` of the `float()` grammar: at least one digit, with
single underscores allowed between digits.  Returns the value, the
number of digits, and the rest of the input. -/
def digitPart (l : List Char) : Option (ℕ × ℕ × List Char) :=
  match l with
  | c :: cs => if c.isDigit then some (digitsGo cs.length (digVal c) 1 cs) else none
  | [] => none

/-- The mantissa of a `float()` literal: `digitpart`, `digitpart '.'`,
`digitpart '.' digitpart` or `'.' digitpart`.  Returns the integer
part, the fraction digits value and the fraction digit count. -/
def pyMantissa (l : List Char) : Option (ℕ × ℕ × ℕ × List Char) :=
  match digitPart l with
  | some (n, _, rest) =>
    match rest with
    | '.' :: cs =>
      match digitPart cs with
      | some (m, j, r2) => some (n, m, j, r2)
      | none => some (n, 0, 0, cs)
    | _ => some (n, 0, 0, rest)
  | none =>
    match l with
    | '.' :: cs =>
      match digitPart cs with
      | some (m, j, r2) => some (0, m, j, r2)
      | none => none
    | _ => none

/-- The optional exponent of a `float()` literal.  Returns the signed
exponent and the rest; fails when `e`/`E` is not followed by digits. -/
def pyExponent (l : List Char) : Option (Int × List Char) :=
  match l with
  | c :: cs =>
    if c == 'e' || c == 'E' then
      let sgnRest : Bool × List Char :=
        match cs with
        | s :: t => if s == '+' then (false, t) else if s == '-' then (true, t) else (false, s :: t)
        | [] => (false, [])
      match digitPart sgnRest.2 with
      | some (e, _, r) => some ((if sgnRest.1 then -(e : Int) else (e : Int)), r)
      | none => none
    else some (0, c :: cs)
  | [] => some (0, l)

/-- Lower-casing of ASCII letters, for the case-insensitive `inf`,
`infinity` and `nan` forms of `float()`. -/
def lowerAscii (c : Char) : Char :=
  if c.isUpper then Char.ofNat (c.toNat + 32) else c

/-- The exact rational `(n + m / 10^j) * 10^e`, built through `mkRat`. -/
def decimalValue (neg : Bool) (n m j : ℕ) (e : Int) : ℚ :=
  let num : Int := (n * 10 ^ j + m : ℕ)
  let num := if neg then -num else num
  if 0 ≤ e then mkRat (num * 10 ^ e.toNat) (10 ^ j)
  else mkRat num (10 ^ j * 10 ^ (-e).toNat)

/-- CPython's `float(s)` on a string: strips whitespace, then accepts
an optional sign followed by `inf`/`infinity`/`nan` (ASCII
case-insensitive) or a decimal literal with optional fraction,
exponent and digit-group underscores.  `none` is a `ValueError`. -/
def pyFloatOfString (s : String) : Option PyFloat :=
  let l := stripWs s.data
  let sgnRest : Bool × List Char :=
    match l with
    | c :: cs => if c == '+' then (false, cs) else if c == '-' then (true, cs) else (false, l)
    | [] => (false, [])
  let neg := sgnRest.1
  let low := sgnRest.2.map lowerAscii
  if low = ('i' :: 'n' :: 'f' :: []) then some (.infinite neg)
  else if low = ('i' :: 'n' :: 'f' :: 'i' :: 'n' :: 'i' :: 't' :: 'y' :: []) then some (.infinite neg)
  else if low = ('n' :: 'a' :: 'n' :: []) then some (.nan)
  else
    match pyMantissa sgnRest.2 with
    | some (n, m, j, rest) =>
      match pyExponent rest with
      | some (e, []) => some (.finite (decimalValue neg n m j e))
      | _ => none
    | none => none

/-- The function `parse_amount(value)` from the source: cleans with
`is_amount=True`, returns `0.0` for an empty cleaned string and
otherwise converts with `float`, whose `ValueError` propagates. -/
def parse_amount (value : Option String) : Except Unit PyFloat :=
  let cleaned := clean_value value true
  if cleaned = "" then .ok (.finite 0)
  else
    match pyFloatOfString cleaned with
    | some f => .ok f
    | none => .error ()

/-- A `datetime.datetime` value as produced by `strptime` with the
format `"%d.%m.%Y %H:%M:%S"` (second precision, no timezone). -/
structure PyDateTime where
  year : ℕ
  month : ℕ
  day : ℕ
  hour : ℕ
  minute : ℕ
  second : ℕ
deriving DecidableEq, Repr

/-- A one-or-two digit `strptime` field.  `_strptime` compiles such a
directive to a regex alternation that prefers two digits in
`[lo2, hi2]` and falls back to one digit in `[lo1, hi1]`; because each
directive here is followed by a non-digit (a separator or the end),
the regex never needs to backtrack, so this greedy function is
equivalent. -/
def field2 (lo2 hi2 lo1 hi1 : ℕ) : List Char → Option (ℕ × List Char)
  | a :: b :: rest =>
    if a.isDigit && b.isDigit then
      let v := digVal a * 10 + digVal b
      if lo2 ≤ v ∧ v ≤ hi2 then some (v, rest) else none
    else if a.isDigit then
      let v := digVal a
      if lo1 ≤ v ∧ v ≤ hi1 then some (v, b :: rest) else none
    else none
  | [a] =>
    if a.isDigit then
      let v := digVal a
      if lo1 ≤ v ∧ v ≤ hi1 then some (v, []) else none
    else none
  | [] => none

/-- The exactly-four-digit `%Y` field of `_strptime`. -/
def field4 : List Char → Option (ℕ × List Char)
  | a :: b :: c :: d :: rest =>
    if a.isDigit && b.isDigit && c.isDigit && d.isDigit then
      some (digVal a * 1000 + digVal b * 100 + digVal c * 10 + digVal d, rest)
    else none
  | _ => none

/-- A literal separator character of the format. -/
def litChar (c : Char) : List Char → Option (List Char)
  | x :: xs => if x == c then some xs else none
  | [] => none

/-- Whitespace in a `strptime` format matches one or more whitespace
characters of the input. -/
def wsRun : List Char → Option (List Char)
  | x :: xs => if isPySpace x then some (xs.dropWhile isPySpace) else none
  | [] => none

/-- Gregorian leap year, as in `datetime`. -/
def isLeap (y : ℕ) : Bool :=
  y % 4 == 0 && (y % 100 != 0 || y % 400 == 0)

/-- Days in a month, as validated by the `datetime` constructor. -/
def daysInMonth (y m : ℕ) : ℕ :=
  if m == 2 then (if isLeap y then 29 else 28)
  else if m == 4 || m == 6 || m == 9 || m == 11 then 30
  else 31

/-- Python `datetime.strptime(s, "%d.%m.%Y %H:%M:%S")`: the field regexes of
`_strptime` followed by the range checks of the `datetime`
constructor (`MINYEAR ≤ year`, day fits the month, `second ≤ 59`);
the whole input must be consumed.  `none` is a `ValueError`. -/
def pyStrptime (s : String) : Option PyDateTime := do
  let (d, r1) ← field2 1 31 1 9 s.data
  let r2 ← litChar ('.') r1
  let (m, r3) ← field2 1 12 1 9 r2
  let r4 ← litChar ('.') r3
  let (y, r5) ← field4 r4
  let r6 ← wsRun r5
  let (h, r7) ← field2 0 23 0 9 r6
  let r8 ← litChar (':') r7
  let (mi, r9) ← field2 0 59 0 9 r8
  let r10 ← litChar (':') r9
  let (sec, r11) ← field2 0 61 0 9 r10
  if r11 = [] ∧ 1 ≤ y ∧ d ≤ daysInMonth y m ∧ sec ≤ 59 then
    some ⟨y, m, d, h, mi, sec⟩
  else none

/-- The function `parse_date(value)` from the source: cleans the text, then
`datetime.strptime`, whose `ValueError` propagates — the function
itself never returns a null date. -/
def parse_date (value : Option String) : Except Unit PyDateTime :=
  match pyStrptime (clean_value value false) with
  | some dt => .ok dt
  | none => .error ()

/-- Fraction digits of the exact decimal expansion of `n / d`
(`n < d`), most significant first; the fuel bounds the number of
digits and is never exhausted for the decimal fractions produced by
`float()` literals, which terminate exactly. -/
def fracDigits : ℕ → ℕ → ℕ → List Char
  | 0, _, _ => []
  | fuel + 1, n, d =>
    if n == 0 then []
    else Char.ofNat (48 + n * 10 / d) :: fracDigits fuel (n * 10 % d) d

/-- The decimal form of a rational, as `repr` renders a finite CPython
float: optional minus sign, integer part, a dot, and the fraction
digits (a single `0` when the value is integral, as in `"10.0"`).
Agrees with CPython's shortest-roundtrip repr on short decimals; see
the header note. -/
def ratDecimalRepr (q : ℚ) : String :=
  let n := q.num.natAbs
  let d := q.den
  let sign := if q.num < 0 then "-" else ""
  let frac := n % d
  sign ++ Nat.repr (n / d) ++ "." ++
    (if frac == 0 then "0" else String.mk (fracDigits 40 frac d))

/-- Python `str(x)` for a float `x`, as interpolated by the f-string in
`create_transaction`. -/
def pyFloatStr : PyFloat → String
  | .finite q => ratDecimalRepr q
  | .infinite neg => if neg then "-inf" else "inf"
  | .nan => "nan"

/-- The boilerplate prefix removed by `create_transaction`
(`'Оплата товаров и услуг. '`). -/
def boilerPhrase : String := "Оплата товаров и услуг. "

/-- The internal-transfer phrase filtered by `parse_debit_pdf`
(`'Перевод между своими счетами'`). -/
def transferPhrase : String := "Перевод между своими счетами"

/-- Constant `DATE_HEADER` (`'Дата и время'`), the debit header phrase. -/
def dateHeaderPhrase : String := "Дата и время"

/-- Python `str.replace(pat, '')`: deletes the non-overlapping occurrences of
`pat`, scanning left to right.  Fuel-structured (one unit per position)
so that the kernel can evaluate it; `replaceAllEmpty` supplies enough
fuel. -/
def removeAllGo (pat : List Char) : ℕ → List Char → List Char
  | 0, l => l
  | _ + 1, [] => []
  | fuel + 1, c :: cs =>
    if pat.isPrefixOf (c :: cs) && !pat.isEmpty then
      removeAllGo pat fuel ((c :: cs).drop pat.length)
    else c :: removeAllGo pat fuel cs

/-- Python `s.replace(pat, '')` on strings (for a non-empty `pat`). -/
def replaceAllEmpty (s pat : String) : String :=
  String.mk (removeAllGo pat.data s.data.length s.data)

/-- The canonical `Transaction` dataclass of the source. -/
structure Transaction where
  expense : PyFloat
  date : PyDateTime
  description : String
deriving DecidableEq, Repr

/-- The function `create_transaction(expense, commission, date, description)` from
the source: the expense of the result is `expense + commission`, the
boilerplate phrase is removed from the description, and a
`' Комиссия: {commission}'` suffix is appended when `commission != 0`. -/
def create_transaction (expense commission : PyFloat) (date : PyDateTime)
    (description : String) : Transaction :=
  let total := expense.add commission
  let desc := replaceAllEmpty description boilerPhrase
  let desc := if commission.eqZero then desc else desc ++ " Комиссия: " ++ pyFloatStr commission
  { expense := total, date := date, description := desc }

/-- A raw row from the table extractor: nullable text cells. -/
abbrev Row := List (Option String)

/-- A table from the extractor: a list of rows. -/
abbrev Table := List Row

/-- Python truthiness of a cell (`None` and `''` are falsy). -/
def cellTruthy : Option String → Bool
  | some s => !(s == "")
  | none => false

/-- Python `str(cell)` for a cell (only ever applied to truthy cells here,
but `str(None)` is the literal `'None'`). -/
def cellStr : Option String → String
  | some s => s
  | none => "None"

/-- Indexing `row[i]` with `IndexError` modelled as `.error ()`. -/
def pyIndex (row : Row) (i : ℕ) : Except Unit (Option String) :=
  match row.get? i with
  | some c => .ok c
  | none => .error ()

/-- Pattern `DATE_PATTERN = \d{2}\.\d{2}\.\d{4}` matching at the head of the
input (ASCII digits; see the header note). -/
def datePatAt : List Char → Bool
  | d1 :: d2 :: p1 :: m1 :: m2 :: p2 :: y1 :: y2 :: y3 :: y4 :: _ =>
    d1.isDigit && d2.isDigit && p1 == '.' && m1.isDigit && m2.isDigit && p2 == '.' &&
      y1.isDigit && y2.isDigit && y3.isDigit && y4.isDigit
  | _ => false

/-- Search `DATE_PATTERN.search(s)`: the pattern occurs somewhere in `s`. -/
def hasDatePat : List Char → Bool
  | [] => false
  | c :: cs => datePatAt (c :: cs) || hasDatePat cs

/-- The header-row test of `parse_debit_pdf`: the row is truthy and
some truthy cell contains `DATE_HEADER`. -/
def headerRowMatch (row : Row) : Bool :=
  !row.isEmpty &&
    row.any (fun c => cellTruthy c && listContains (cellStr c).data dateHeaderPhrase.data)

/-- Index of the first header row of a debit table (`next(...)` over
`enumerate(table)`), if any. -/
def debitHeaderIdx (table : Table) : Option ℕ :=
  table.findIdx? headerRowMatch

/-- Outcome of one candidate row: not a candidate (pre-filters), a
caught row-level exception, filtered out by a business rule, or a
produced transaction. -/
inductive RowResult where
  | notCandidate
  | rowError
  | filtered
  | produced (t : Transaction)
deriving DecidableEq, Repr

/-- The `try` body of the debit row loop: `parse_amount(row[4])`,
`parse_amount(row[5])`, `parse_date(row[0])`, `clean_value(row[6])`
in source order, then the zero-amount / internal-transfer filter,
then `create_transaction`. -/
def debitTry (row : Row) : Except Unit (Option Transaction) :=
  match pyIndex row 4 with
  | .error e => .error e
  | .ok c4 =>
    match parse_amount c4 with
    | .error e => .error e
    | .ok expense =>
      match pyIndex row 5 with
      | .error e => .error e
      | .ok c5 =>
        match parse_amount c5 with
        | .error e => .error e
        | .ok commission =>
          match pyIndex row 0 with
          | .error e => .error e
          | .ok c0 =>
            match parse_date c0 with
            | .error e => .error e
            | .ok date =>
              match pyIndex row 6 with
              | .error e => .error e
              | .ok c6 =>
                let description := clean_value c6 false
                if expense.eqZero || listContains description.data transferPhrase.data then
                  .ok none
                else
                  .ok (some (create_transaction expense commission date description))

/-- One row of the debit data loop: the `not row or not any(row)` and
date-sniff pre-filters, then the `try/except` body. -/
def debitRowResult (row : Row) : RowResult :=
  match row with
  | [] => .notCandidate
  | c0 :: rest =>
    if !((c0 :: rest).any cellTruthy) then .notCandidate
    else if !(cellTruthy c0) then .notCandidate
    else if !(hasDatePat (cellStr c0).data) then .notCandidate
    else
      match debitTry (c0 :: rest) with
      | .error _ => .rowError
      | .ok none => .filtered
      | .ok (some t) => .produced t

/-- The transaction a row outcome appends, if any. -/
def rowOut : RowResult → Option Transaction
  | .produced t => some t
  | _ => none

/-- The debit data loop over the rows after the header. -/
def debitCollect (rows : List Row) : List Transaction :=
  rows.filterMap (fun r => rowOut (debitRowResult r))

/-- One debit table: skipped when empty or headerless, otherwise the
rows after the first header row are processed. -/
def debitTable (table : Table) : List Transaction :=
  if table.isEmpty then []
  else
    match debitHeaderIdx table with
    | none => []
    | some i => debitCollect (table.drop (i + 1))

/-- The sort key: `datetime` comparison is lexicographic on the six
fields, encoded here into one natural number (the radix per field
exceeds that field's validated range). -/
def dateKey (d : PyDateTime) : ℕ :=
  ((((d.year * 13 + d.month) * 32 + d.day) * 24 + d.hour) * 60 + d.minute) * 60 + d.second

/-- Stable insertion of a transaction: it lands before the first entry
whose date is not strictly smaller, hence after every strictly earlier
entry and before every equal-date entry already present. -/
def insortDate (t : Transaction) : List Transaction → List Transaction
  | [] => [t]
  | u :: us =>
    if dateKey u.date < dateKey t.date then u :: insortDate t us
    else t :: u :: us

/-- Python `operations.sort(key=attrgetter('date'))`: a stable ascending sort
by date (see the header note). -/
def sortByDate (l : List Transaction) : List Transaction :=
  l.foldr insortDate []

/-- The function `parse_debit_pdf`, from the extracted tables onward: per-table
processing, then the final sort. -/
def parse_debit_pdf (tables : List Table) : List Transaction :=
  sortByDate (tables.flatMap debitTable)

/-- Constant `'Дата изменения'`, the credit header phrase that rejects a table. -/
def changedHeaderPhrase : String := "Дата изменения"

/-- Constant `'Проведена'`, the credit header phrase a table must contain. -/
def conductedPhrase : String := "Проведена"

/-- Constant `'Задолжен'`, the credit header phrase selecting the shifted
description column. -/
def debtPhrase : String := "Задолжен"

/-- Credit-table header handling: tables of fewer than two rows are
skipped; `header` joins the truthy cells of the first row with
spaces; a table is skipped when `header` contains `'Дата изменения'`
or lacks `'Проведена'`; otherwise the description column is 7 when
`header` contains `'Задолжен'`, else 6. -/
def creditHeader (table : Table) : Option ℕ :=
  match table with
  | [] => none
  | first :: _ =>
    if table.length < 2 then none
    else
      let header := String.intercalate (" ") ((first.filterMap id).filter (fun s => !(s == "")))
      if listContains header.data changedHeaderPhrase.data then none
      else if !(listContains header.data conductedPhrase.data) then none
      else some (if listContains header.data debtPhrase.data then 7 else 6)

/-- The `try` body of the credit row loop: `parse_amount(row[4])`,
`parse_amount(row[5])`, `parse_date(row[0])`,
`clean_value(row[desc_idx])`, then `create_transaction` — no
zero-amount or transfer filter here. -/
def creditTry (descIdx : ℕ) (row : Row) : Except Unit (Option Transaction) :=
  match pyIndex row 4 with
  | .error e => .error e
  | .ok c4 =>
    match parse_amount c4 with
    | .error e => .error e
    | .ok expense =>
      match pyIndex row 5 with
      | .error e => .error e
      | .ok c5 =>
        match parse_amount c5 with
        | .error e => .error e
        | .ok commission =>
          match pyIndex row 0 with
          | .error e => .error e
          | .ok c0 =>
            match parse_date c0 with
            | .error e => .error e
            | .ok date =>
              match pyIndex row descIdx with
              | .error e => .error e
              | .ok cd =>
                let description := clean_value cd false
                .ok (some (create_transaction expense commission date description))

/-- One row of the credit data loop: the `not row or not row[0]`
pre-filter, then the `try/except` body. -/
def creditRowResult (descIdx : ℕ) (row : Row) : RowResult :=
  match row with
  | [] => .notCandidate
  | c0 :: rest =>
    if !(cellTruthy c0) then .notCandidate
    else
      match creditTry descIdx (c0 :: rest) with
      | .error _ => .rowError
      | .ok none => .filtered
      | .ok (some t) => .produced t

/-- The credit data loop over `table[1:]`. -/
def creditCollect (descIdx : ℕ) (rows : List Row) : List Transaction :=
  rows.filterMap (fun r => rowOut (creditRowResult descIdx r))

/-- One credit table: header checks, then the data loop. -/
def creditTable (table : Table) : List Transaction :=
  match creditHeader table with
  | none => []
  | some di => creditCollect di (table.drop 1)

/-- The function `parse_credit_pdf`, from the extracted tables onward. -/
def parse_credit_pdf (tables : List Table) : List Transaction :=
  sortByDate (tables.flatMap creditTable)

/-- Python `x >= 0` on a float (false for `nan`; stated through the
numerator so that it reduces in the kernel). -/
def PyFloat.isNonNeg : PyFloat → Bool
  | .finite q => decide (0 ≤ q.num)
  | .infinite neg => !neg
  | .nan => false

/-- Every whitespace character of the list is a plain space. -/
def wsBlankOnly (l : List Char) : Prop :=
  ∀ c ∈ l, isPySpace c = true → c = ' '

/-- No two adjacent whitespace characters. -/
def noTwoWs (l : List Char) : Prop :=
  List.Chain' (fun a b => ¬(isPySpace a = true ∧ isPySpace b = true)) l

/-- The normal form produced by `clean_value`: whitespace only as
single interior spaces. -/
def cleanNormal (l : List Char) : Prop :=
  wsBlankOnly l ∧ noTwoWs l ∧
    (∀ c, l.head? = some c → isPySpace c = false) ∧
    (∀ c, l.getLast? = some c → isPySpace c = false)

/-! ### Helper lemmas -/

theorem debitTry_ok_some {row : Row} {t : Transaction} (h : debitTry row = .ok (some t)) :
    ∃ c4 e c5 c c0 dt c6,
      pyIndex row 4 = .ok c4 ∧ parse_amount c4 = .ok e ∧
      pyIndex row 5 = .ok c5 ∧ parse_amount c5 = .ok c ∧
      pyIndex row 0 = .ok c0 ∧ parse_date c0 = .ok dt ∧
      pyIndex row 6 = .ok c6 ∧
      (e.eqZero || listContains (clean_value c6 false).data transferPhrase.data) = false ∧
      t = create_transaction e c dt (clean_value c6 false) := by
  cases h4 : pyIndex row 4 with
  | error e0 => simp [debitTry, h4] at h
  | ok c4 =>
    cases hea : parse_amount c4 with
    | error e0 => simp [debitTry, h4, hea] at h
    | ok e =>
      cases h5 : pyIndex row 5 with
      | error e0 => simp [debitTry, h4, hea, h5] at h
      | ok c5 =>
        cases hca : parse_amount c5 with
        | error e0 => simp [debitTry, h4, hea, h5, hca] at h
        | ok c =>
          cases h0 : pyIndex row 0 with
          | error e0 => simp [debitTry, h4, hea, h5, hca, h0] at h
          | ok c0 =>
            cases hd : parse_date c0 with
            | error e0 => simp [debitTry, h4, hea, h5, hca, h0, hd] at h
            | ok dt =>
              cases h6 : pyIndex row 6 with
              | error e0 => simp [debitTry, h4, hea, h5, hca, h0, hd, h6] at h
              | ok c6 =>
                simp only [debitTry, h4, hea, h5, hca, h0, hd, h6] at h
                by_cases hf :
                    (e.eqZero || listContains (clean_value c6 false).data transferPhrase.data) = true
                · rw [if_pos hf] at h
                  simp at h
                · rw [if_neg hf] at h
                  refine ⟨c4, e, c5, c, c0, dt, c6, rfl, hea, rfl, hca, rfl, hd, rfl, ?_, ?_⟩
                  · simpa using hf
                  · simpa using h.symm

theorem creditTry_ok_some {descIdx : ℕ} {row : Row} {t : Transaction}
    (h : creditTry descIdx row = .ok (some t)) :
    ∃ c4 e c5 c c0 dt cd,
      pyIndex row 4 = .ok c4 ∧ parse_amount c4 = .ok e ∧
      pyIndex row 5 = .ok c5 ∧ parse_amount c5 = .ok c ∧
      pyIndex row 0 = .ok c0 ∧ parse_date c0 = .ok dt ∧
      pyIndex row descIdx = .ok cd ∧
      t = create_transaction e c dt (clean_value cd false) := by
  cases h4 : pyIndex row 4 with
  | error e0 => simp [creditTry, h4] at h
  | ok c4 =>
    cases hea : parse_amount c4 with
    | error e0 => simp [creditTry, h4, hea] at h
    | ok e =>
      cases h5 : pyIndex row 5 with
      | error e0 => simp [creditTry, h4, hea, h5] at h
      | ok c5 =>
        cases hca : parse_amount c5 with
        | error e0 => simp [creditTry, h4, hea, h5, hca] at h
        | ok c =>
          cases h0 : pyIndex row 0 with
          | error e0 => simp [creditTry, h4, hea, h5, hca, h0] at h
          | ok c0 =>
            cases hd : parse_date c0 with
            | error e0 => simp [creditTry, h4, hea, h5, hca, h0, hd] at h
            | ok dt =>
              cases h6 : pyIndex row descIdx with
              | error e0 => simp [creditTry, h4, hea, h5, hca, h0, hd, h6] at h
              | ok cd =>
                simp only [creditTry, h4, hea, h5, hca, h0, hd, h6] at h
                exact ⟨c4, e, c5, c, c0, dt, cd, rfl, hea, rfl, hca, rfl, hd, rfl,
                  by simpa using h.symm⟩

theorem debitRowResult_produced {row : Row} {t : Transaction}
    (h : debitRowResult row = .produced t) : debitTry row = .ok (some t) := by
  cases row with
  | nil => simp [debitRowResult] at h
  | cons c0 rest =>
    simp only [debitRowResult] at h
    split_ifs at h
    cases hdt : debitTry (c0 :: rest) with
    | error e0 => rw [hdt] at h; simp at h
    | ok o =>
      cases o with
      | none => rw [hdt] at h; simp at h
      | some x => rw [hdt] at h; simp only [RowResult.produced.injEq] at h; rw [h]

theorem creditRowResult_produced {descIdx : ℕ} {row : Row} {t : Transaction}
    (h : creditRowResult descIdx row = .produced t) : creditTry descIdx row = .ok (some t) := by
  cases row with
  | nil => simp [creditRowResult] at h
  | cons c0 rest =>
    simp only [creditRowResult] at h
    split_ifs at h
    cases hdt : creditTry descIdx (c0 :: rest) with
    | error e0 => rw [hdt] at h; simp at h
    | ok o =>
      cases o with
      | none => rw [hdt] at h; simp at h
      | some x => rw [hdt] at h; simp only [RowResult.produced.injEq] at h; rw [h]

/-! ### C1 -/

/-- C1: for all inputs, the `Transaction` returned by
`create_transaction` has `expense = expense + commission`, and when
`commission == 0` its description is the input description with only
the boilerplate phrase removed — no commission suffix is appended. -/
theorem create_transaction_sum_and_plain_description
    (e c : PyFloat) (d : PyDateTime) (s : String) :
    (create_transaction e c d s).expense = e.add c ∧
    (c.eqZero = true →
      (create_transaction e c d s).description = replaceAllEmpty s boilerPhrase) := by
  refine ⟨rfl, fun h => ?_⟩
  simp [create_transaction, h]

/-- Witness for C1 at a concrete input with zero commission. -/
theorem create_transaction_sum_and_plain_description_witness :
    PyFloat.eqZero (PyFloat.finite 0) = true ∧
    (create_transaction (PyFloat.finite 5) (PyFloat.finite 0) ⟨2024, 1, 1, 0, 0, 0⟩
        ("Оплата товаров и услуг. Кафе")).expense =
      (PyFloat.finite 5).add (PyFloat.finite 0) ∧
    (create_transaction (PyFloat.finite 5) (PyFloat.finite 0) ⟨2024, 1, 1, 0, 0, 0⟩
        ("Оплата товаров и услуг. Кафе")).description =
      replaceAllEmpty ("Оплата товаров и услуг. Кафе") boilerPhrase :=
  ⟨by decide,
   (create_transaction_sum_and_plain_description _ _ _ _).1,
   (create_transaction_sum_and_plain_description _ _ _ _).2 (by decide)⟩

/-! ### C2 -/

/-- C2 counterexample: `parse_amount` is not total — on the
non-numeric garbage `"abc"` the `float` conversion raises
`ValueError` instead of returning `0.0`. -/
theorem parse_amount_raises_on_garbage :
    parse_amount (some ("abc")) = .error () := by decide

/-- C2 amended: `parse_amount` returns `0.0` without raising whenever
the cleaned string is empty (null input, empty input, or input
consisting only of stripped characters); when the cleaned string is
non-empty but not a valid float literal, it raises `ValueError`
(caught per row by the callers). -/
theorem parse_amount_zero_or_raise (v : Option String) :
    (clean_value v true = "" → parse_amount v = .ok (.finite 0)) ∧
    (clean_value v true ≠ "" → pyFloatOfString (clean_value v true) = none →
      parse_amount v = .error ()) := by
  constructor
  · intro h
    simp [parse_amount, h]
  · intro h1 h2
    simp [parse_amount, h1, h2]

/-- Witness for C2 (amended) at both kinds of concrete input. -/
theorem parse_amount_zero_or_raise_witness :
    (clean_value (some (" ,RUB")) true = "" ∧ parse_amount (some (" ,RUB")) = .ok (.finite 0)) ∧
    (clean_value (some ("abc")) true ≠ "" ∧
      pyFloatOfString (clean_value (some ("abc")) true) = none ∧
      parse_amount (some ("abc")) = .error ()) :=
  ⟨⟨by decide, (parse_amount_zero_or_raise _).1 (by decide)⟩,
   ⟨by decide, by decide, (parse_amount_zero_or_raise _).2 (by decide) (by decide)⟩⟩

/-! ### C3 -/

/-- C3 counterexample: the claim's row
`["02.03.2024 09:00:00", x, "500.00", x, "10.00", "Groceries"]` does
not yield a `Transaction` at all — the debit classifier reads the
amount from cell 4 (`"10.00"`) and the commission from cell 5
(`"Groceries"`), whose `float` conversion raises, so the row is a
caught row-level error and is skipped. -/
theorem debit_claim_row_yields_nothing :
    debitRowResult [some ("02.03.2024 09:00:00"), some ("x"), some ("500.00"), some ("x"),
        some ("10.00"), some ("Groceries")] = .rowError ∧
    debitCollect [[some ("02.03.2024 09:00:00"), some ("x"), some ("500.00"), some ("x"),
        some ("10.00"), some ("Groceries")]] = [] := by decide

/-- C3 amended: the Debit-bank-B classifier reads the date from cell
0, the amount from cell 4 (no absolute value taken), the commission
from cell 5 and the description from cell 6 (`debitTry` depends on a
row only through those four cells), and the seven-cell row
`["02.03.2024 09:00:00", a, b, c, "500.00", "10.00", "Groceries"]`
yields `Transaction(expense=510.0,
description="Groceries Комиссия: 10.0")`. -/
theorem debit_row_reads_cells_0_4_5_6 :
    (∀ row row' : Row,
        row.get? 0 = row'.get? 0 → row.get? 4 = row'.get? 4 →
        row.get? 5 = row'.get? 5 → row.get? 6 = row'.get? 6 →
        debitTry row = debitTry row') ∧
    debitRowResult [some ("02.03.2024 09:00:00"), some ("a"), some ("b"), some ("c"),
        some ("500.00"), some ("10.00"), some ("Groceries")] =
      .produced ⟨.finite 510, ⟨2024, 3, 2, 9, 0, 0⟩, "Groceries Комиссия: 10.0"⟩ := by
  constructor
  · intro row row' h0 h4 h5 h6
    simp only [debitTry, pyIndex, h0, h4, h5, h6]
  · decide

/-- Witness for C3 (amended): two concrete rows differing only in the
unread cells 1–3 classify identically. -/
theorem debit_row_reads_cells_0_4_5_6_witness :
    debitTry [some ("02.03.2024 09:00:00"), some ("a"), some ("b"), some ("c"),
        some ("500.00"), some ("10.00"), some ("Groceries")] =
      debitTry [some ("02.03.2024 09:00:00"), some ("p"), none, some ("q"),
        some ("500.00"), some ("10.00"), some ("Groceries")] :=
  debit_row_reads_cells_0_4_5_6.1 _ _ rfl rfl rfl rfl

/-! ### C5 -/

/-- C5 counterexample: `parse_date` never returns a null date — on
input that `strptime` cannot parse it raises `ValueError` (modelled by
`.error ()`); moreover `strptime`'s field regexes also accept one- and
two-digit day/month/hour fields, so `"2.3.2024 9:0:0"`, which does not
match the literal pattern `DD.MM.YYYY HH:MM:SS`, still parses. -/
theorem parse_date_mismatch_behaviour :
    parse_date (some ("garbage")) = .error () ∧
    parse_date (some ("2.3.2024 9:0:0")) = .ok ⟨2024, 3, 2, 9, 0, 0⟩ := by decide

/-- C5 amended: on every input whose cleaned form `strptime` cannot
parse, `parse_date` raises `ValueError` rather than returning a null
value; the row-level handlers of both parsers catch it, so a row
whose date cell fails to parse never yields a `Transaction`. -/
theorem parse_date_raise_and_row_skip :
    (∀ v : Option String, pyStrptime (clean_value v false) = none → parse_date v = .error ()) ∧
    (∀ (c0 : Option String) (rest : Row) (t : Transaction), parse_date c0 = .error () →
        debitRowResult (c0 :: rest) ≠ .produced t) ∧
    (∀ (di : ℕ) (c0 : Option String) (rest : Row) (t : Transaction), parse_date c0 = .error () →
        creditRowResult di (c0 :: rest) ≠ .produced t) := by
  refine ⟨fun v h => ?_, fun c0 rest t h hcontra => ?_, fun di c0 rest t h hcontra => ?_⟩
  · simp [parse_date, h]
  · obtain ⟨c4, e, c5, c, c0', dt, c6, h4, hea, h5, hca, h0, hd, -, -, -⟩ :=
      debitTry_ok_some (debitRowResult_produced hcontra)
    simp only [pyIndex, List.get?] at h0
    cases h0
    rw [h] at hd
    cases hd
  · obtain ⟨c4, e, c5, c, c0', dt, cd, h4, hea, h5, hca, h0, hd, -, -⟩ :=
      creditTry_ok_some (creditRowResult_produced hcontra)
    simp only [pyIndex, List.get?] at h0
    cases h0
    rw [h] at hd
    cases hd

/-- Witness for C5 (amended) at concrete inputs. -/
theorem parse_date_raise_and_row_skip_witness :
    parse_date (some ("not a date")) = .error () ∧
    debitRowResult [some ("not a date"), none, none, none, some ("5.00"), some ("0"),
        some ("Shop")] ≠ .produced ⟨.finite 5, ⟨2024, 1, 1, 0, 0, 0⟩, "Shop"⟩ :=
  ⟨parse_date_raise_and_row_skip.1 (some ("not a date")) (by decide),
   parse_date_raise_and_row_skip.2.1 _ _ _ (by decide)⟩

/-! ### C8 -/

/-- C8: a malformed candidate row (wrong cell count, unparsable
amount, unparsable date) is caught as a row-level error and skipped:
it contributes no `Transaction` and the surrounding rows are processed
exactly as without it, in both the debit and the credit data loops —
so one bad row never aborts the statement. -/
theorem malformed_row_skipped :
    (∀ (pre suf : List Row) (row : Row), debitRowResult row = .rowError →
        debitCollect (pre ++ row :: suf) = debitCollect pre ++ debitCollect suf) ∧
    (∀ (di : ℕ) (pre suf : List Row) (row : Row), creditRowResult di row = .rowError →
        creditCollect di (pre ++ row :: suf) = creditCollect di pre ++ creditCollect di suf) := by
  constructor
  · intro pre suf row h
    simp [debitCollect, List.filterMap_append, List.filterMap_cons, h, rowOut]
  · intro di pre suf row h
    simp [creditCollect, List.filterMap_append, List.filterMap_cons, h, rowOut]

/-- Witness for C8: a concrete malformed row (five cells, unparsable
amount in cell 4) between two good rows is skipped while both
neighbours are kept. -/
theorem malformed_row_skipped_witness :
    debitRowResult [some ("02.01.2024 00:00:00"), none, none, none, some ("abc")] =
      .rowError ∧
    debitCollect ([[some ("01.01.2024 00:00:00"), none, none, none, some ("5.00"), some ("0"),
        some ("Books")]] ++
      [some ("02.01.2024 00:00:00"), none, none, none, some ("abc")] ::
      [[some ("03.01.2024 00:00:00"), none, none, none, some ("7.00"), some ("0"),
        some ("Games")]]) =
    debitCollect [[some ("01.01.2024 00:00:00"), none, none, none, some ("5.00"), some ("0"),
        some ("Books")]] ++
      debitCollect [[some ("03.01.2024 00:00:00"), none, none, none, some ("7.00"), some ("0"),
        some ("Games")]] :=
  ⟨by decide, malformed_row_skipped.1 _ _ _ (by decide)⟩

/-! ### C4 -/

/-- Addition of two non-negative floats is non-negative. -/
theorem PyFloat.isNonNeg_add {a b : PyFloat} (ha : a.isNonNeg = true) (hb : b.isNonNeg = true) :
    (a.add b).isNonNeg = true := by
  cases a with
  | nan => simp [PyFloat.isNonNeg] at ha
  | infinite n =>
    cases b with
    | nan => simp [PyFloat.isNonNeg] at hb
    | infinite m =>
      simp only [PyFloat.isNonNeg, Bool.not_eq_true'] at ha hb
      simp [PyFloat.add, PyFloat.isNonNeg, ha, hb]
    | finite q =>
      simpa [PyFloat.add, PyFloat.isNonNeg] using ha
  | finite qa =>
    cases b with
    | nan => simp [PyFloat.isNonNeg] at hb
    | infinite m =>
      simpa [PyFloat.add, PyFloat.isNonNeg] using hb
    | finite qb =>
      simp only [PyFloat.isNonNeg, decide_eq_true_eq] at ha hb
      simp only [PyFloat.add, PyFloat.isNonNeg, decide_eq_true_eq]
      rw [Rat.num_nonneg, Rat.mkRat_eq_div]
      have h1 : (0 : ℤ) ≤ qa.num * qb.den + qb.num * qa.den :=
        add_nonneg (mul_nonneg ha (Int.natCast_nonneg _)) (mul_nonneg hb (Int.natCast_nonneg _))
      have h2 : (0 : ℚ) ≤ ((qa.num * qb.den + qb.num * qa.den : ℤ) : ℚ) := by exact_mod_cast h1
      have h3 : (0 : ℚ) ≤ ((qa.den * qb.den : ℕ) : ℚ) := by positivity
      exact div_nonneg h2 h3

/-- C4 counterexample: a debit row with raw amount `"-500.00"` passes
the `expense == 0` filter and produces a `Transaction` with negative
expense, so not every parsed transaction has a non-negative expense. -/
theorem debit_output_negative_expense :
    (parse_debit_pdf [[[some ("Дата и время")],
        [some ("01.01.2024 00:00:00"), none, none, none, some ("-500.00"), some ("0.00"),
          some ("Shop")]]]).all (fun t => t.expense.isNonNeg) = false := by decide

/-- C4 amended: every `Transaction` produced by the debit or credit
row classifier has `expense` equal to the sum of the row's parsed
amount and parsed commission; this is non-negative whenever both
parsed values are non-negative, but no absolute value or sign check is
applied, so a negative raw amount yields a negative expense. -/
theorem classifier_expense_sum_sign :
    (∀ (row : Row) (t : Transaction) (c4 c5 : Option String) (e c : PyFloat),
        debitRowResult row = .produced t →
        row.get? 4 = some c4 → parse_amount c4 = .ok e →
        row.get? 5 = some c5 → parse_amount c5 = .ok c →
        t.expense = e.add c ∧
          (e.isNonNeg = true → c.isNonNeg = true → t.expense.isNonNeg = true)) ∧
    (∀ (di : ℕ) (row : Row) (t : Transaction) (c4 c5 : Option String) (e c : PyFloat),
        creditRowResult di row = .produced t →
        row.get? 4 = some c4 → parse_amount c4 = .ok e →
        row.get? 5 = some c5 → parse_amount c5 = .ok c →
        t.expense = e.add c ∧
          (e.isNonNeg = true → c.isNonNeg = true → t.expense.isNonNeg = true)) := by
  constructor
  · intro row t c4 c5 e c hp hg4 hpe hg5 hpc
    obtain ⟨c4', e', c5', c', c0', dt, c6', h4, hea, h5, hca, h0, hd, h6, hf, ht⟩ :=
      debitTry_ok_some (debitRowResult_produced hp)
    rw [pyIndex, hg4] at h4
    cases h4
    rw [hpe] at hea
    cases hea
    rw [pyIndex, hg5] at h5
    cases h5
    rw [hpc] at hca
    cases hca
    refine ⟨by rw [ht]; rfl, fun hne hnc => ?_⟩
    rw [ht]
    exact PyFloat.isNonNeg_add hne hnc
  · intro di row t c4 c5 e c hp hg4 hpe hg5 hpc
    obtain ⟨c4', e', c5', c', c0', dt, cd', h4, hea, h5, hca, h0, hd, h6, ht⟩ :=
      creditTry_ok_some (creditRowResult_produced hp)
    rw [pyIndex, hg4] at h4
    cases h4
    rw [hpe] at hea
    cases hea
    rw [pyIndex, hg5] at h5
    cases h5
    rw [hpc] at hca
    cases hca
    refine ⟨by rw [ht]; rfl, fun hne hnc => ?_⟩
    rw [ht]
    exact PyFloat.isNonNeg_add hne hnc

/-- Witness for C4 (amended) at a concrete produced row. -/
theorem classifier_expense_sum_sign_witness :
    (⟨PyFloat.finite 510, ⟨2024, 1, 1, 0, 0, 0⟩, "Shop Комиссия: 10.0"⟩ : Transaction).expense =
      (PyFloat.finite 500).add (PyFloat.finite 10) ∧
    (⟨PyFloat.finite 510, ⟨2024, 1, 1, 0, 0, 0⟩,
        "Shop Комиссия: 10.0"⟩ : Transaction).expense.isNonNeg = true :=
  ⟨(classifier_expense_sum_sign.1
      [some ("01.01.2024 00:00:00"), none, none, none, some ("500.00"), some ("10.00"),
        some ("Shop")]
      ⟨PyFloat.finite 510, ⟨2024, 1, 1, 0, 0, 0⟩, "Shop Комиссия: 10.0"⟩
      (some ("500.00")) (some ("10.00")) (PyFloat.finite 500) (PyFloat.finite 10)
      (by decide) (by decide) (by decide) (by decide) (by decide)).1,
   (classifier_expense_sum_sign.1
      [some ("01.01.2024 00:00:00"), none, none, none, some ("500.00"), some ("10.00"),
        some ("Shop")]
      ⟨PyFloat.finite 510, ⟨2024, 1, 1, 0, 0, 0⟩, "Shop Комиссия: 10.0"⟩
      (some ("500.00")) (some ("10.00")) (PyFloat.finite 500) (PyFloat.finite 10)
      (by decide) (by decide) (by decide) (by decide) (by decide)).2 (by decide) (by decide)⟩

/-! ### C7 -/

theorem insortDate_cons_lt {t u : Transaction} {us : List Transaction}
    (h : dateKey u.date < dateKey t.date) :
    insortDate t (u :: us) = u :: insortDate t us := by
  simp [insortDate, h]

theorem insortDate_cons_ge {t u : Transaction} {us : List Transaction}
    (h : ¬dateKey u.date < dateKey t.date) :
    insortDate t (u :: us) = t :: u :: us := by
  simp [insortDate, h]

theorem mem_insortDate {a t : Transaction} {l : List Transaction} :
    a ∈ insortDate t l ↔ a = t ∨ a ∈ l := by
  induction l with
  | nil => simp [insortDate]
  | cons u us ih =>
    by_cases h : dateKey u.date < dateKey t.date
    · rw [insortDate_cons_lt h]
      simp only [List.mem_cons, ih]
      tauto
    · rw [insortDate_cons_ge h]
      simp only [List.mem_cons]

theorem insortDate_perm (t : Transaction) (l : List Transaction) :
    (insortDate t l).Perm (t :: l) := by
  induction l with
  | nil => exact List.Perm.refl _
  | cons u us ih =>
    by_cases h : dateKey u.date < dateKey t.date
    · rw [insortDate_cons_lt h]
      exact (ih.cons u).trans (List.Perm.swap t u us)
    · rw [insortDate_cons_ge h]

theorem sortByDate_perm (l : List Transaction) : (sortByDate l).Perm l := by
  induction l with
  | nil => exact List.Perm.refl _
  | cons x xs ih => exact (insortDate_perm x (sortByDate xs)).trans (ih.cons x)

theorem pairwise_insortDate {t : Transaction} {l : List Transaction}
    (h : l.Pairwise (fun a b => dateKey a.date ≤ dateKey b.date)) :
    (insortDate t l).Pairwise (fun a b => dateKey a.date ≤ dateKey b.date) := by
  induction l with
  | nil => simp [insortDate]
  | cons u us ih =>
    rw [List.pairwise_cons] at h
    by_cases hul : dateKey u.date < dateKey t.date
    · rw [insortDate_cons_lt hul, List.pairwise_cons]
      refine ⟨fun b hb => ?_, ih h.2⟩
      rcases mem_insortDate.mp hb with hb | hb
      · exact hb ▸ Nat.le_of_lt hul
      · exact h.1 b hb
    · rw [insortDate_cons_ge hul, List.pairwise_cons]
      refine ⟨fun b hb => ?_, List.pairwise_cons.mpr h⟩
      rcases List.mem_cons.mp hb with hb | hb
      · exact hb ▸ Nat.le_of_not_lt hul
      · exact Nat.le_trans (Nat.le_of_not_lt hul) (h.1 b hb)

theorem sortByDate_sorted (l : List Transaction) :
    (sortByDate l).Pairwise (fun a b => dateKey a.date ≤ dateKey b.date) := by
  induction l with
  | nil => simp [sortByDate]
  | cons x xs ih => exact pairwise_insortDate ih

theorem filter_insortDate (d : PyDateTime) (t : Transaction) (l : List Transaction) :
    (insortDate t l).filter (fun u => u.date == d) =
      if t.date = d then t :: l.filter (fun u => u.date == d)
      else l.filter (fun u => u.date == d) := by
  induction l with
  | nil => by_cases ht : t.date = d <;> simp [insortDate, List.filter_cons, ht]
  | cons u us ih =>
    by_cases hul : dateKey u.date < dateKey t.date
    · rw [insortDate_cons_lt hul, List.filter_cons, List.filter_cons, ih]
      by_cases hu : u.date = d
      · by_cases ht : t.date = d
        · exfalso
          rw [hu, ht] at hul
          exact Nat.lt_irrefl _ hul
        · simp [hu, ht]
      · by_cases ht : t.date = d <;> simp [hu, ht]
    · rw [insortDate_cons_ge hul, List.filter_cons]
      by_cases ht : t.date = d <;> simp [ht]

theorem sortByDate_stable (l : List Transaction) (d : PyDateTime) :
    (sortByDate l).filter (fun u => u.date == d) = l.filter (fun u => u.date == d) := by
  induction l with
  | nil => rfl
  | cons x xs ih =>
    have hs : sortByDate (x :: xs) = insortDate x (sortByDate xs) := rfl
    rw [hs, filter_insortDate, ih, List.filter_cons]
    by_cases hx : x.date = d <;> simp [hx]

/-- C7: the list each parser hands to the export sink is its collected
transactions sorted by date: the sort is non-decreasing on the date
key (`datetime` order), is a permutation of the input, and is stable —
the subsequence of entries with any fixed date is unchanged, so ties
keep their original row-encounter order. -/
theorem export_list_sorted_stable :
    (∀ l : List Transaction,
        (sortByDate l).Pairwise (fun a b => dateKey a.date ≤ dateKey b.date) ∧
        (sortByDate l).Perm l ∧
        ∀ d : PyDateTime,
          (sortByDate l).filter (fun u => u.date == d) = l.filter (fun u => u.date == d)) ∧
    (∀ tables : List Table,
        parse_debit_pdf tables = sortByDate (tables.flatMap debitTable) ∧
        parse_credit_pdf tables = sortByDate (tables.flatMap creditTable)) :=
  ⟨fun l => ⟨sortByDate_sorted l, sortByDate_perm l, fun d => sortByDate_stable l d⟩,
   fun _ => ⟨rfl, rfl⟩⟩

/-! ### C10 -/

theorem isAmountStrip_of_space {c : Char} (h : isPySpace c = true) : isAmountStrip c = true := by
  simp [isAmountStrip, h]

theorem isAmountStrip_space : isAmountStrip ' ' = true := by decide

theorem filter_amount_collapseWs (l : List Char) :
    (collapseWs l).filter (fun c => !isAmountStrip c) = l.filter (fun c => !isAmountStrip c) := by
  induction l with
  | nil => rfl
  | cons c t ih =>
    cases t with
    | nil =>
      by_cases hc : isPySpace c
      · simp [collapseWs, hc, List.filter_cons, isAmountStrip_of_space hc, isAmountStrip_space]
      · simp [collapseWs, hc, List.filter_cons]
    | cons c2 ts =>
      by_cases hc : isPySpace c
      · have h1 := isAmountStrip_of_space hc
        by_cases hc2 : isPySpace c2
        · simp [show collapseWs (c :: c2 :: ts) = collapseWs (c2 :: ts) by
            simp [collapseWs, hc, hc2], List.filter_cons, h1, ih]
        · simp [show collapseWs (c :: c2 :: ts) = ' ' :: collapseWs (c2 :: ts) by
            simp [collapseWs, hc, hc2], List.filter_cons, h1, isAmountStrip_space, ih]
      · simp [show collapseWs (c :: c2 :: ts) = c :: collapseWs (c2 :: ts) by
          simp [collapseWs, hc], List.filter_cons, ih]

theorem filter_amount_dropWhile (l : List Char) :
    (l.dropWhile isPySpace).filter (fun c => !isAmountStrip c) =
      l.filter (fun c => !isAmountStrip c) := by
  induction l with
  | nil => rfl
  | cons c t ih =>
    by_cases hc : isPySpace c
    · simp [List.dropWhile_cons, hc, List.filter_cons, isAmountStrip_of_space hc, ih]
    · simp [List.dropWhile_cons, hc]

theorem filter_amount_dropTrail (l : List Char) :
    (dropTrailWs l).filter (fun c => !isAmountStrip c) =
      l.filter (fun c => !isAmountStrip c) := by
  unfold dropTrailWs
  rw [List.filter_reverse, filter_amount_dropWhile, List.filter_reverse, List.reverse_reverse]

theorem clean_value_amount_filter (s : String) :
    clean_value (some s) true = String.mk (s.data.filter (fun c => !isAmountStrip c)) := by
  by_cases hs : s = ""
  · subst hs
    rfl
  · show (if s = "" then "" else String.mk
      (if true then (stripWs (collapseWs s.data)).filter (fun c => !isAmountStrip c)
       else stripWs (collapseWs s.data))) = _
    rw [if_neg hs, if_pos rfl]
    rw [show stripWs (collapseWs s.data) =
        dropTrailWs ((collapseWs s.data).dropWhile isPySpace) from rfl]
    rw [filter_amount_dropTrail, filter_amount_dropWhile, filter_amount_collapseWs]

/-- C10: before conversion, `parse_amount` deletes from the input
exactly the commas, the whitespace characters and the uppercase
letters `R`, `U`, `B` (the `[,\sRUB]+` pattern), so a comma is never a
decimal separator: `parse_amount("1,50")` is `150.0` and
`parse_amount("1 234.56 RUB")` is `1234.56`. -/
theorem parse_amount_strips_commas_ws_rub :
    (∀ s : String,
        clean_value (some s) true = String.mk (s.data.filter (fun c => !isAmountStrip c))) ∧
    parse_amount (some ("1,50")) = .ok (.finite 150) ∧
    parse_amount (some ("1 234.56 RUB")) = .ok (.finite (mkRat 123456 100)) :=
  ⟨clean_value_amount_filter, by decide, by decide⟩

/-! ### C9 -/

theorem wsBlankOnly_collapseWs (l : List Char) : wsBlankOnly (collapseWs l) := by
  induction l with
  | nil => intro c hc _; simp [collapseWs] at hc
  | cons c t ih =>
    cases t with
    | nil =>
      intro x hx hws
      by_cases hc : isPySpace c
      · simp [collapseWs, hc] at hx
        exact hx
      · simp [collapseWs, hc] at hx
        subst hx
        exact absurd hws hc
    | cons c2 ts =>
      intro x hx hws
      by_cases hb : isPySpace c = true ∧ isPySpace c2 = true
      · rw [show collapseWs (c :: c2 :: ts) = collapseWs (c2 :: ts) by
          simp [collapseWs, hb.1, hb.2]] at hx
        exact ih x hx hws
      · have hnb : ¬(isPySpace c && isPySpace c2) = true := by
          simp only [Bool.and_eq_true]
          exact hb
        rw [show collapseWs (c :: c2 :: ts) =
            (if isPySpace c then ' ' else c) :: collapseWs (c2 :: ts) by
          simp [collapseWs, hnb]] at hx
        rcases List.mem_cons.mp hx with hx | hx
        · by_cases hc : isPySpace c
          · rwa [if_pos hc] at hx
          · rw [if_neg hc] at hx
            subst hx
            exact absurd hws hc
        · exact ih x hx hws

theorem collapseWs_cons_head :
    ∀ (cs : List Char) (c : Char),
      ∃ r, collapseWs (c :: cs) = (if isPySpace c then ' ' else c) :: r := by
  intro cs
  induction cs with
  | nil =>
    intro c
    by_cases hc : isPySpace c
    · exact ⟨[], by simp [collapseWs, hc]⟩
    · exact ⟨[], by simp [collapseWs, hc]⟩
  | cons c2 ts ih =>
    intro c
    by_cases hb : isPySpace c = true ∧ isPySpace c2 = true
    · obtain ⟨r, hr⟩ := ih c2
      refine ⟨r, ?_⟩
      rw [show collapseWs (c :: c2 :: ts) = collapseWs (c2 :: ts) by
        simp [collapseWs, hb.1, hb.2], hr]
      rw [if_pos hb.1, if_pos hb.2]
    · have hnb : ¬(isPySpace c && isPySpace c2) = true := by
        simp only [Bool.and_eq_true]
        exact hb
      exact ⟨collapseWs (c2 :: ts), by simp [collapseWs, hnb]⟩

theorem noTwoWs_collapseWs (l : List Char) : noTwoWs (collapseWs l) := by
  induction l with
  | nil => simp [collapseWs, noTwoWs]
  | cons c t ih =>
    cases t with
    | nil =>
      by_cases hc : isPySpace c <;>
        simp [collapseWs, hc, noTwoWs, List.chain'_singleton]
    | cons c2 ts =>
      by_cases hb : isPySpace c = true ∧ isPySpace c2 = true
      · unfold noTwoWs
        rw [show collapseWs (c :: c2 :: ts) = collapseWs (c2 :: ts) by
          simp [collapseWs, hb.1, hb.2]]
        exact ih
      · have hnb : ¬(isPySpace c && isPySpace c2) = true := by
          simp only [Bool.and_eq_true]
          exact hb
        obtain ⟨r, hr⟩ := collapseWs_cons_head ts c2
        unfold noTwoWs at ih ⊢
        rw [show collapseWs (c :: c2 :: ts) =
            (if isPySpace c then ' ' else c) :: collapseWs (c2 :: ts) by
          simp [collapseWs, hnb], hr, List.chain'_cons]
        constructor
        · rintro ⟨hx, hy⟩
          apply hb
          constructor
          · by_cases h : isPySpace c
            · exact h
            · rw [if_neg h] at hx
              exact absurd hx h
          · by_cases h : isPySpace c2
            · exact h
            · rw [if_neg h] at hy
              exact absurd hy h
        · rw [← hr]
          exact ih

theorem collapseWs_eq_self : ∀ l : List Char, wsBlankOnly l → noTwoWs l → collapseWs l = l := by
  intro l
  induction l with
  | nil => intro _ _; rfl
  | cons c t ih =>
    intro h1 h2
    cases t with
    | nil =>
      by_cases hc : isPySpace c
      · have := h1 c (by simp) hc
        simp [collapseWs, hc, this]
      · simp [collapseWs, hc]
    | cons c2 ts =>
      have hnb : ¬(isPySpace c && isPySpace c2) = true := by
        simp only [Bool.and_eq_true]
        unfold noTwoWs at h2
        rw [List.chain'_cons] at h2
        exact h2.1
      rw [show collapseWs (c :: c2 :: ts) =
          (if isPySpace c then ' ' else c) :: collapseWs (c2 :: ts) by
        simp [collapseWs, hnb]]
      have ht1 : wsBlankOnly (c2 :: ts) := fun x hx hw => h1 x (List.mem_cons_of_mem _ hx) hw
      have ht2 : noTwoWs (c2 :: ts) := by
        unfold noTwoWs at h2 ⊢
        exact h2.tail
      rw [ih ht1 ht2]
      by_cases hc : isPySpace c
      · rw [if_pos hc, h1 c (by simp) hc]
      · rw [if_neg hc]

theorem chain'_dropWhile {R : Char → Char → Prop} (p : Char → Bool) :
    ∀ {l : List Char}, List.Chain' R l → List.Chain' R (l.dropWhile p) := by
  intro l
  induction l with
  | nil => intro h; exact h
  | cons c t ih =>
    intro h
    rw [List.dropWhile_cons]
    by_cases hc : p c
    · rw [if_pos hc]
      exact ih h.tail
    · rw [if_neg hc]
      exact h

theorem dropWhile_head_false (p : Char → Bool) :
    ∀ (l : List Char) (c : Char), (l.dropWhile p).head? = some c → p c = false := by
  intro l
  induction l with
  | nil => intro c h; simp at h
  | cons x t ih =>
    intro c h
    rw [List.dropWhile_cons] at h
    by_cases hx : p x
    · rw [if_pos hx] at h
      exact ih c h
    · rw [if_neg hx] at h
      simp only [List.head?_cons, Option.some.injEq] at h
      subst h
      exact Bool.not_eq_true _ ▸ (by simpa using hx)

theorem noTwoWs_stripWs {l : List Char} (h : noTwoWs l) : noTwoWs (stripWs l) := by
  unfold noTwoWs at h ⊢
  unfold stripWs dropTrailWs
  have himp : ∀ a b : Char,
      (¬(isPySpace a = true ∧ isPySpace b = true)) → ¬(isPySpace b = true ∧ isPySpace a = true) :=
    fun a b hab hx => hab ⟨hx.2, hx.1⟩
  have h1 := chain'_dropWhile isPySpace h
  have h2 : List.Chain' (fun a b : Char => ¬(isPySpace a = true ∧ isPySpace b = true))
      ((l.dropWhile isPySpace).reverse) := by
    rw [List.chain'_reverse]
    exact h1.imp himp
  have h3 := chain'_dropWhile isPySpace h2
  rw [List.chain'_reverse]
  exact h3.imp himp

theorem stripWs_subset (l : List Char) : stripWs l ⊆ l := by
  intro c hc
  unfold stripWs dropTrailWs at hc
  rw [List.mem_reverse] at hc
  have hc2 := (List.dropWhile_suffix _).subset hc
  rw [List.mem_reverse] at hc2
  exact (List.dropWhile_suffix _).subset hc2

theorem dropTrailWs_isPrefixOf (l : List Char) : dropTrailWs l <+: l := by
  unfold dropTrailWs
  have h := List.dropWhile_suffix (l := l.reverse) isPySpace
  have h2 := List.reverse_prefix.mpr h
  rwa [List.reverse_reverse] at h2

theorem head?_eq_of_isPrefixOf {l₁ l₂ : List Char} (h : l₁ <+: l₂) {c : Char}
    (hc : l₁.head? = some c) : l₂.head? = some c := by
  obtain ⟨t, rfl⟩ := h
  cases l₁ with
  | nil => simp at hc
  | cons a r => simpa using hc

theorem cleanNormal_stripWs_collapseWs (l : List Char) :
    cleanNormal (stripWs (collapseWs l)) := by
  refine ⟨?_, noTwoWs_stripWs (noTwoWs_collapseWs l), ?_, ?_⟩
  · intro c hc hw
    exact wsBlankOnly_collapseWs l c (stripWs_subset _ hc) hw
  · intro c hc
    have hp := dropTrailWs_isPrefixOf ((collapseWs l).dropWhile isPySpace)
    exact dropWhile_head_false isPySpace _ c (head?_eq_of_isPrefixOf hp hc)
  · intro c hc
    unfold stripWs dropTrailWs at hc
    rw [List.getLast?_reverse] at hc
    exact dropWhile_head_false isPySpace _ c hc

theorem stripWs_collapseWs_eq_self {l : List Char} (h : cleanNormal l) :
    stripWs (collapseWs l) = l := by
  obtain ⟨h1, h2, h3, h4⟩ := h
  rw [collapseWs_eq_self l h1 h2]
  unfold stripWs dropTrailWs
  have hdw : l.dropWhile isPySpace = l := by
    cases l with
    | nil => rfl
    | cons c t =>
      have hc := h3 c rfl
      rw [List.dropWhile_cons, hc]
      simp
  rw [hdw]
  cases hr : l.reverse with
  | nil =>
    have hl : l = [] := by
      have := congrArg List.reverse hr
      rwa [List.reverse_reverse] at this
    simpa using hl.symm
  | cons c t =>
    have hcl : isPySpace c = false := by
      apply h4 c
      rw [← List.head?_reverse, hr]
      rfl
    rw [List.dropWhile_cons, hcl]
    simp only [if_neg (by simp : ¬(false = true))]
    rw [← hr, List.reverse_reverse]

theorem clean_value_false_of_ne (s : String) (hs : ¬s = "") :
    clean_value (some s) false = String.mk (stripWs (collapseWs s.data)) := by
  simp [clean_value, hs]

theorem listContains_single_ws {l : List Char} (h : wsBlankOnly l) (c : Char)
    (hws : isPySpace c = true) (hne : ¬c = ' ') : listContains l (c :: []) = false := by
  induction l with
  | nil => rfl
  | cons x t ih =>
    have ht : wsBlankOnly t := fun y hy hw => h y (List.mem_cons_of_mem _ hy) hw
    show (List.isPrefixOf (c :: []) (x :: t) || listContains t (c :: [])) = false
    rw [ih ht]
    have hcx : (c == x) = false := by
      by_cases hxeq : c = x
      · subst hxeq
        exact absurd (h c (by simp) hws) hne
      · simp [hxeq]
    simp [List.isPrefixOf, hcx]

theorem listContains_double_space {l : List Char} (h : noTwoWs l) :
    listContains l (' ' :: ' ' :: []) = false := by
  induction l with
  | nil => rfl
  | cons x t ih =>
    unfold noTwoWs at h
    have ht : noTwoWs t := by
      unfold noTwoWs
      exact h.tail
    show (List.isPrefixOf (' ' :: ' ' :: []) (x :: t) || listContains t (' ' :: ' ' :: [])) = false
    rw [ih ht]
    cases t with
    | nil => simp [List.isPrefixOf]
    | cons y t2 =>
      rw [List.chain'_cons] at h
      by_cases hx : x = ' '
      · by_cases hy : y = ' '
        · exact absurd ⟨by rw [hx]; decide, by rw [hy]; decide⟩ h.1
        · have : (' ' == y) = false := by
            by_cases hq : (' ' : Char) = y
            · exact absurd hq.symm hy
            · simp [hq]
          simp [List.isPrefixOf, this]
      · have : (' ' == x) = false := by
          by_cases hq : (' ' : Char) = x
          · exact absurd hq.symm hx
          · simp [hq]
        simp [List.isPrefixOf, this]

/-- C9: `clean_value` with `is_amount=False` (the spec's `clean_text`)
is idempotent for every input including null and the empty string, and
its result contains no raw newline and no run of two or more
consecutive spaces. -/
theorem clean_text_idempotent_and_normalized (v : Option String) :
    clean_value (some (clean_value v false)) false = clean_value v false ∧
    strContains (clean_value v false) ("\n") = false ∧
    strContains (clean_value v false) ("  ") = false := by
  by_cases h0 : clean_value v false = ""
  · rw [h0]
    exact ⟨rfl, by decide, by decide⟩
  · cases v with
    | none => exact absurd rfl h0
    | some s =>
      by_cases hs : s = ""
      · subst hs
        exact absurd rfl h0
      · have hr : clean_value (some s) false = String.mk (stripWs (collapseWs s.data)) :=
          clean_value_false_of_ne s hs
        have hnorm := cleanNormal_stripWs_collapseWs s.data
        refine ⟨?_, ?_, ?_⟩
        · rw [hr] at h0 ⊢
          rw [clean_value_false_of_ne _ h0]
          exact congrArg String.mk (stripWs_collapseWs_eq_self hnorm)
        · rw [hr]
          show listContains (stripWs (collapseWs s.data)) ('\n' :: []) = false
          exact listContains_single_ws hnorm.1 '\n' (by decide) (by decide)
        · rw [hr]
          show listContains (stripWs (collapseWs s.data)) (' ' :: ' ' :: []) = false
          exact listContains_double_space hnorm.2.1

/-! ### C6 -/

theorem debitTable_mem {tb : Table} {t : Transaction} (h : t ∈ debitTable tb) :
    ∃ row : Row, debitRowResult row = .produced t := by
  unfold debitTable at h
  by_cases he : tb.isEmpty
  · rw [if_pos he] at h
    simp at h
  · rw [if_neg he] at h
    cases hh : debitHeaderIdx tb with
    | none => rw [hh] at h; simp at h
    | some i =>
      rw [hh] at h
      unfold debitCollect at h
      rw [List.mem_filterMap] at h
      obtain ⟨row, _, hout⟩ := h
      cases hres : debitRowResult row with
      | produced x =>
        rw [hres] at hout
        simp only [rowOut, Option.some.injEq] at hout
        exact ⟨row, by rw [hres, hout]⟩
      | notCandidate => rw [hres] at hout; simp [rowOut] at hout
      | rowError => rw [hres] at hout; simp [rowOut] at hout
      | filtered => rw [hres] at hout; simp [rowOut] at hout

/-- C6: in the debit parser, a row whose parsed amount equals zero and
a row whose classified description (`clean_value(row[6])`) contains
the internal-transfer phrase `'Перевод между своими счетами'` never
yield a `Transaction`, and every transaction of the
`parse_debit_pdf` output is produced by some row — so no output entry
comes from a zero-amount or internal-transfer row. -/
theorem debit_filters_zero_and_transfers :
    (∀ (row : Row) (c4 : Option String) (e : PyFloat) (x : Transaction),
        row.get? 4 = some c4 → parse_amount c4 = .ok e → e.eqZero = true →
        debitRowResult row ≠ .produced x) ∧
    (∀ (row : Row) (c6 : Option String) (x : Transaction),
        row.get? 6 = some c6 →
        listContains (clean_value c6 false).data transferPhrase.data = true →
        debitRowResult row ≠ .produced x) ∧
    (∀ (tables : List Table) (t : Transaction), t ∈ parse_debit_pdf tables →
        ∃ row : Row, debitRowResult row = .produced t) := by
  refine ⟨fun row c4 e x hg4 hpe hz hcontra => ?_,
          fun row c6 x hg6 hphr hcontra => ?_,
          fun tables t h => ?_⟩
  · obtain ⟨c4', e', c5', c', c0', dt, c6', h4, hea, h5, hca, h0, hd, h6, hf, ht⟩ :=
      debitTry_ok_some (debitRowResult_produced hcontra)
    rw [pyIndex, hg4] at h4
    cases h4
    rw [hpe] at hea
    cases hea
    rw [hz] at hf
    simp at hf
  · obtain ⟨c4', e', c5', c', c0', dt, c6', h4, hea, h5, hca, h0, hd, h6, hf, ht⟩ :=
      debitTry_ok_some (debitRowResult_produced hcontra)
    rw [pyIndex, hg6] at h6
    cases h6
    rw [hphr] at hf
    simp at hf
  · unfold parse_debit_pdf at h
    have h3 : t ∈ tables.flatMap debitTable := ((sortByDate_perm _).mem_iff).mp h
    rw [List.mem_flatMap] at h3
    obtain ⟨tb, _, htb⟩ := h3
    exact debitTable_mem htb

/-- Witness for C6 at a concrete zero-amount row and a concrete
internal-transfer row. -/
theorem debit_filters_zero_and_transfers_witness :
    debitRowResult [some ("03.01.2024 00:00:00"), none, none, none, some ("0.00"),
        some ("0.00"), some ("Shop")] ≠
      .produced ⟨.finite 0, ⟨2024, 1, 3, 0, 0, 0⟩, "Shop"⟩ ∧
    debitRowResult [some ("04.01.2024 00:00:00"), none, none, none, some ("200.00"),
        some ("0.00"), some ("Перевод между своими счетами")] ≠
      .produced ⟨.finite 200, ⟨2024, 1, 4, 0, 0, 0⟩, "Перевод между своими счетами"⟩ :=
  ⟨debit_filters_zero_and_transfers.1 _ (some ("0.00")) (.finite 0) _
      (by decide) (by decide) (by decide),
   debit_filters_zero_and_transfers.2.1 _ (some ("Перевод между своими счетами")) _
      (by decide) (by decide)⟩
